import Mathlib

/-!
Verification development for the `s3-asset-uploader` package.

The JavaScript source is shallowly embedded: file contents and byte streams
are modelled as `String` (an abstract byte sequence), the external
collaborators (the `crypto` md5 hasher, the `zlib` gzip codec and the `mime`
lookup table, all out of scope per the specification) are modelled as an
explicit record `Ext` of opaque functions, JavaScript objects used as
string-keyed maps are modelled as functions `String → Option String`, and
the few regular expressions the source uses are translated into explicit
character-list matchers that implement exactly the JavaScript `replace` /
`test` behaviour of those concrete patterns (leftmost match, anchored where
the pattern is anchored).  POSIX path separators are assumed (`path.sep`
is `"/"`), matching the environment the package targets.
-/

namespace S3AssetUploader

/-- JavaScript `\w` character class: `[A-Za-z0-9_]`. -/
def isWordChar (c : Char) : Bool :=
  (('a' ≤ c && c ≤ 'z') || ('A' ≤ c && c ≤ 'Z') || ('0' ≤ c && c ≤ '9') || c = '_')

/-- A character admissible inside a dot-extension suffix: `.` or `\w`. -/
def isDotWordChar (c : Char) : Bool :=
  c = '.' || isWordChar c

/-- Whole-list match of `\.\w+` (a dot followed by one or more word chars). -/
def isDotWord (cs : List Char) : Bool :=
  match cs with
  | c :: rest => c = '.' && (!rest.isEmpty && rest.all isWordChar)
  | [] => false

/-- Whole-list match of `((\.\w+)?\.\w+)`: a one- or two-segment dot
extension, the suffix form of `FILE_EXTENSION_REGEXP = /((\.\w+)?\.\w+)$/`
from `index.js`. -/
def isExtSuffix (cs : List Char) : Bool :=
  isDotWord cs ||
    (List.range (cs.length + 1)).any (fun i =>
      isDotWord (cs.take i) && isDotWord (cs.drop i))

/-- Leftmost position at which `((\.\w+)?\.\w+)$` matches, i.e. the leftmost
`i` such that the whole suffix starting at `i` is a one- or two-segment dot
extension.  `none` when the regexp does not match (JavaScript `replace`
then returns the string unchanged). -/
def extMatchStart (cs : List Char) : Option Nat :=
  (List.range (cs.length + 1)).find? (fun i => isExtSuffix (cs.drop i))

/-- `S3Sync.hashedFileKey`: `fileKey.replace(FILE_EXTENSION_REGEXP, '-${hash}$1')`.
Group 1 spans the entire match, so the replacement splices `-hash` in front
of the matched trailing extension. -/
def hashedFileKey (fileKey : String) (hash : String) : String :=
  match extMatchStart fileKey.data with
  | some i => ⟨fileKey.data.take i⟩ ++ "-" ++ hash ++ ⟨fileKey.data.drop i⟩
  | none => fileKey

example : hashedFileKey "app.min.js" "abc123" = "app-abc123.min.js" := by decide
example : hashedFileKey "style.css" "abc123" = "style-abc123.css" := by decide
example : hashedFileKey "Makefile" "abc123" = "Makefile" := by decide

/-! ### POSIX path helpers (`path.posix.join`, `path.dirname`, `path.basename`)

The source relies on Node's `path` module; only the POSIX behaviour on the
relative, slash-separated names occurring in this package is modelled. -/

/-- Split a character list on `'/'` (segments may be empty). -/
def splitSlash : List Char → List (List Char)
  | [] => [[]]
  | c :: rest =>
    if c = '/' then [] :: splitSlash rest
    else
      match splitSlash rest with
      | seg :: segs => (c :: seg) :: segs
      | [] => [[c]]

/-- The segment-normalisation loop of Node's `path.posix.normalize`:
drops empty and `.` segments, resolves `..` against the accumulated stack
(kept when the path is relative and there is nothing to pop).
`acc` holds the already-normalised segments in reverse order. -/
def normSegs (isAbs : Bool) (acc : List (List Char)) : List (List Char) → List (List Char)
  | [] => acc.reverse
  | seg :: rest =>
    if seg = [] || seg = ['.'] then normSegs isAbs acc rest
    else if seg = ['.', '.'] then
      match acc with
      | top :: acc' =>
        if top = ['.', '.'] then normSegs isAbs (seg :: acc) rest
        else normSegs isAbs acc' rest
      | [] => if isAbs then normSegs isAbs [] rest else normSegs isAbs [seg] rest
    else normSegs isAbs (seg :: acc) rest

/-- Interleave `'/'` between segments. -/
def joinSegs : List (List Char) → List Char
  | [] => []
  | [seg] => seg
  | seg :: rest => seg ++ '/' :: joinSegs rest

/-- Node `path.posix.normalize` (without trailing-slash preservation, which
never arises for the names this package manipulates). -/
def posixNormalize (s : String) : String :=
  let cs := s.data
  let isAbs := cs.head? = some '/'
  let body := joinSegs (normSegs isAbs [] (splitSlash cs))
  if isAbs then
    ⟨'/' :: body⟩
  else if body = [] then "." else ⟨body⟩

/-- Node `path.posix.join(a, b)`: non-empty arguments joined with `'/'`,
then normalised; `"."` when everything is empty. -/
def posixJoin (a b : String) : String :=
  if a = "" then
    if b = "" then "." else posixNormalize b
  else
    if b = "" then posixNormalize a else posixNormalize (a ++ "/" ++ b)

/-- Node `path.dirname` (POSIX), for the slash-separated relative names
used by this package. -/
def posixDirname (s : String) : String :=
  let rcs := s.data.reverse.dropWhile (fun c => c = '/')
  let r := rcs.dropWhile (fun c => c ≠ '/')
  let r2 := r.dropWhile (fun c => c = '/')
  if r2 = [] then
    if s.data.head? = some '/' then "/" else "."
  else ⟨r2.reverse⟩

/-- Node `path.basename` (POSIX). -/
def posixBasename (s : String) : String :=
  let rcs := s.data.reverse.dropWhile (fun c => c = '/')
  if rcs = [] then
    if s = "" then "" else "/"
  else ⟨(rcs.takeWhile (fun c => c ≠ '/')).reverse⟩

example : posixJoin "" "css/app.css" = "css/app.css" := by decide
example : posixJoin "assets" "css/app.css" = "assets/css/app.css" := by decide
example : posixJoin "." "app.css.map" = "app.css.map" := by decide
example : posixDirname "css/app.css" = "css" := by decide
example : posixDirname "app.css" = "." := by decide
example : posixBasename "assets/css/app-H1.css.map" = "app-H1.css.map" := by decide

/-! ### `lib/file.js`: content classifier -/

/-- `text/css` (`CONTENT_TYPE_CSS`). -/
def CONTENT_TYPE_CSS : String := "text/css"

/-- `application/javascript` (`CONTENT_TYPE_JS`). -/
def CONTENT_TYPE_JS : String := "application/javascript"

/-- `application/json` (`CONTENT_TYPE_JSON`). -/
def CONTENT_TYPE_JSON : String := "application/json"

/-- `application/octet-stream` (`CONTENT_TYPE_BINARY`). -/
def CONTENT_TYPE_BINARY : String := "application/octet-stream"

/-- `suffix.data.isSuffixOf s.data`: string suffix test used to translate
the anchored extension regexps of `lib/file.js`. -/
def strEndsWith (s suffix : String) : Bool :=
  suffix.data.isSuffixOf s.data

/-- `EXTENSION_GZ_REGEXP = /\.gz$/` applied by `isGzipped`. -/
def isGzipped (filePath : String) : Bool :=
  strEndsWith filePath ".gz"

/-- `lib/file.js` `getContentType`: `/\.js(\.gz)?$/` ⇒ JS,
`/\.css(\.gz)?$/` ⇒ CSS, `/\.(js|css)\.map$/` ⇒ JSON, otherwise
`mime.getType(filePath) || CONTENT_TYPE_BINARY`.  The external `mime`
lookup table is a parameter. -/
def getContentType (mime : String → Option String) (filePath : String) : String :=
  if strEndsWith filePath ".js" || strEndsWith filePath ".js.gz" then CONTENT_TYPE_JS
  else if strEndsWith filePath ".css" || strEndsWith filePath ".css.gz" then CONTENT_TYPE_CSS
  else if strEndsWith filePath ".js.map" || strEndsWith filePath ".css.map" then CONTENT_TYPE_JSON
  else (mime filePath).getD CONTENT_TYPE_BINARY

example : getContentType (fun _ => none) "app.js.gz" = CONTENT_TYPE_JS := by decide
example : getContentType (fun _ => none) "source.css.map" = CONTENT_TYPE_JSON := by decide
example : isGzipped "app.js.gz" = true := by decide
example : isGzipped "source.css.map" = false := by decide

/-! ### External collaborators and shared data model -/

/-- The external collaborators the package delegates to, out of scope per
the specification: the `crypto` md5 hex digest, the `zlib` gzip codec and
the `mime` extension lookup.  Byte sequences are modelled as `String`. -/
structure Ext where
  md5 : String → String
  gzip : String → String
  gunzip : String → String
  mime : String → Option String

/-- A concrete symbolic instantiation of the collaborators, used to
evaluate the development on explicit inputs: `md5` and `gzip` are modelled
as injective tagging functions (the hash is collision-free, compression is
lossless). -/
def mockExt : Ext where
  md5 := fun s => "md5(" ++ s ++ ")"
  gzip := fun s => "gz(" ++ s ++ ")"
  gunzip := fun s => "ungz(" ++ s ++ ")"
  mime := fun _ => none

/-- `S3SyncDigest`: a JavaScript object used as a map from relative
original file names to destination keys, modelled as its lookup function. -/
def Digest : Type := String → Option String

/-- The empty JavaScript object `{}`. -/
def emptyDigest : Digest := fun _ => none

/-- JavaScript property assignment `digest[k] = v`. -/
def digestInsert (d : Digest) (k v : String) : Digest :=
  fun k' => if k' = k then some v else d k'

/-- JavaScript truthiness of an optional string: `undefined` and `""` are
falsy, every other string is truthy. -/
def jsTruthy (o : Option String) : Option String :=
  match o with
  | some v => if v = "" then none else some v
  | none => none

/-- JavaScript `a || b` on optional strings (`a` wins iff truthy). -/
def jsOr (a b : Option String) : Option String :=
  match jsTruthy a with
  | some v => some v
  | none => b

/-! ### `lib/hash.js` and `lib/stream.js` -/

/-- `hashLib.hashFromString`: md5 hex digest of a string. -/
def hashFromString (ext : Ext) (data : String) : String :=
  ext.md5 data

/-- `hashLib.hashFromFile`: md5 hex digest of the raw bytes of the file,
with the local filesystem modelled as a map `fs` from paths to contents. -/
def hashFromFile (ext : Ext) (fs : String → String) (filePath : String) : String :=
  ext.md5 (fs filePath)

/-- `streamLib.fileToString`: the file's bytes, gunzipped first when the
file is gzip-named. -/
def fileToString (ext : Ext) (fs : String → String) (filePath : String) : String :=
  if isGzipped filePath then ext.gunzip (fs filePath) else fs filePath

/-! ### `lib/transform.js`: regular expressions

`CSS_URL_REGEXP = /url\(\/([^)]+)\)/g`,
`CSS_SOURCEMAP_REGEXP = /\/\*# sourceMappingURL=([^*]+)\*\/$/`,
`JS_SOURCEMAP_REGEXP = /\/\/# sourceMappingURL=(.+)$/`
are translated into explicit matchers with JavaScript semantics:
a match is attempted at each position from the left, the `$`-anchored
patterns must reach the end of the string, and `.` does not match a
newline. -/

/-- The literal part of `CSS_URL_REGEXP`. -/
def cssUrlLit : List Char := "url(/".data

/-- The literal part of `CSS_SOURCEMAP_REGEXP`. -/
def cssSmLit : List Char := "/*# sourceMappingURL=".data

/-- The literal part of `JS_SOURCEMAP_REGEXP`. -/
def jsSmLit : List Char := "//# sourceMappingURL=".data

/-- Attempt `CSS_SOURCEMAP_REGEXP` at the start of `cs`, requiring the
match to span the whole list (the pattern is `$`-anchored): the literal,
then a non-empty run of non-`*` characters (the capture), then `*/` at the
very end.  Returns the capture. -/
def cssSmMatchAt (cs : List Char) : Option (List Char) :=
  if cssSmLit.isPrefixOf cs then
    let rest := cs.drop 21
    let body := rest.take (rest.length - 2)
    let tl := rest.drop (rest.length - 2)
    if body ≠ [] && tl = ['*', '/'] && !body.contains '*' then some body else none
  else none

/-- Attempt `JS_SOURCEMAP_REGEXP` at the start of `cs`, requiring the match
to span the whole list: the literal, then `(.+)$` — a non-empty capture
containing no newline, reaching the end of the string. -/
def jsSmMatchAt (cs : List Char) : Option (List Char) :=
  if jsSmLit.isPrefixOf cs then
    let rest := cs.drop 21
    if rest ≠ [] && !rest.contains '\n' then some rest else none
  else none

/-- Leftmost-match scan: try `f` at every suffix, left to right, returning
the match position (counted from `i`) and the match data. -/
def findFrom (f : List Char → Option α) : List Char → Nat → Option (Nat × α)
  | [], i => (f []).map (fun a => (i, a))
  | c :: rest, i =>
    match f (c :: rest) with
    | some a => some (i, a)
    | none => findFrom f rest (i + 1)

/-- Attempt `CSS_URL_REGEXP` at the start of `cs`: the literal `url(/`,
then a non-empty greedy run of non-`)` characters (the capture), then `)`.
Returns the capture and the remainder after the match. -/
def cssUrlMatchAt (cs : List Char) : Option (List Char × List Char) :=
  if cssUrlLit.isPrefixOf cs then
    let rest := cs.drop 5
    let u := rest.takeWhile (fun c => c ≠ ')')
    match rest.dropWhile (fun c => c ≠ ')') with
    | _ :: after => if u.isEmpty then none else some (u, after)
    | [] => none
  else none

/-- `cssUrlReplacer`: replace the captured URL with the digest entry when
the entry is truthy, otherwise emit the match unchanged. -/
def cssUrlRepl (digest : Digest) (u : List Char) : List Char :=
  match jsTruthy (digest ⟨u⟩) with
  | some v => cssUrlLit ++ v.data ++ [')']
  | none => cssUrlLit ++ u ++ [')']

/-- Global-replace scan for `CSS_URL_REGEXP` (fuel-indexed; the fuel is the
length of the list, consumed at least one character per step). -/
def cssUrlGo (digest : Digest) : Nat → List Char → List Char
  | 0, cs => cs
  | _ + 1, [] => []
  | n + 1, c :: rest =>
    match cssUrlMatchAt (c :: rest) with
    | some (u, after) => cssUrlRepl digest u ++ cssUrlGo digest n after
    | none => c :: cssUrlGo digest n rest

/-- `fileData.replace(CSS_URL_REGEXP, cssUrlReplacer)`. -/
def cssUrlReplace (digest : Digest) (s : String) : String :=
  ⟨cssUrlGo digest s.data.length s.data⟩

example :
    cssUrlReplace
      (digestInsert (digestInsert emptyDigest "css/a.css" "assets/css/a-H1.css")
        "img/b.png" "assets/img/b-H2.png")
      "x url(/img/b.png) y url(/img/c.png) z" =
      "x url(/assets/img/b-H2.png) y url(/img/c.png) z" := by decide

/-! ### `lib/transform.js`: the rewriter -/

/-- `hashedSourceMapFileBaseName`: join the current file's relative
directory with the captured base name, look the joined key up in the
digest, and return the basename of the digest value when the entry is
truthy (`undefined` otherwise). -/
def hashedSourceMapFileBaseName (digest : Digest) (relativeDirPath : String)
    (fileBaseName : String) : Option String :=
  match jsTruthy (digest (posixJoin relativeDirPath fileBaseName)) with
  | some v => some (posixBasename v)
  | none => none

/-- `fileData.replace(CSS_SOURCEMAP_REGEXP, cssSourceMapReplacer)`: the
pattern is not global, so only the leftmost (necessarily end-anchored)
match is replaced; the replacer keeps the match unchanged when
`hashedSourceMapFileBaseName` yields nothing truthy. -/
def cssSourceMapReplace (digest : Digest) (relativeDirPath : String) (s : String) : String :=
  match findFrom cssSmMatchAt s.data 0 with
  | some (i, nm) =>
    match hashedSourceMapFileBaseName digest relativeDirPath ⟨nm⟩ with
    | some url =>
      if url = "" then s
      else ⟨s.data.take i⟩ ++ "/*# sourceMappingURL=" ++ url ++ "*/"
    | none => s
  | none => s

/-- `fileData.replace(JS_SOURCEMAP_REGEXP, jsSourceMapReplacer)`. -/
def jsSourceMapReplace (digest : Digest) (relativeDirPath : String) (s : String) : String :=
  match findFrom jsSmMatchAt s.data 0 with
  | some (i, nm) =>
    match hashedSourceMapFileBaseName digest relativeDirPath ⟨nm⟩ with
    | some url =>
      if url = "" then s
      else ⟨s.data.take i⟩ ++ "//# sourceMappingURL=" ++ url
    | none => s
  | none => s

/-- `replaceHashedFilenamesInCss`: url references first, then the trailing
sourcemap comment. -/
def replaceHashedFilenamesInCss (digest : Digest) (relativeDirPath : String)
    (fileData : String) : String :=
  cssSourceMapReplace digest relativeDirPath (cssUrlReplace digest fileData)

/-- `replaceHashedFilenamesInJs`: only the trailing sourcemap comment. -/
def replaceHashedFilenamesInJs (digest : Digest) (relativeDirPath : String)
    (fileData : String) : String :=
  jsSourceMapReplace digest relativeDirPath fileData

/-- `ReplaceHashedFilenamesResult`: `transformed` flag, the result byte
stream, and the recalculated hash (absent when untransformed). -/
structure ReplaceResult where
  transformed : Bool
  stream : String
  hash : Option String
  deriving DecidableEq

/-- `transformedDataToStream`: the transformed text, re-compressed when the
original file was gzip-named. -/
def transformedDataToStream (ext : Ext) (filePath : String) (transformedData : String) : String :=
  if isGzipped filePath then ext.gzip transformedData else transformedData

/-- `recalculateHash`: hash of the transformed text directly (fast path),
or of the re-compressed stream when the file is gzip-named. -/
def recalculateHash (ext : Ext) (filePath : String) (transformedData : String) : String :=
  if isGzipped filePath then ext.md5 (transformedDataToStream ext filePath transformedData)
  else hashFromString ext transformedData

/-- `transformFile`: read the file as text, apply the transform callback,
and either hand back the original stream (`transformed = false`, no hash)
when nothing changed, or the transformed stream with its recalculated
hash. -/
def transformFile (ext : Ext) (fs : String → String) (filePath : String)
    (transformCallback : String → String) : ReplaceResult :=
  let originalData := fileToString ext fs filePath
  let transformedData := transformCallback originalData
  if originalData = transformedData then
    { transformed := false, stream := fs filePath, hash := none }
  else
    { transformed := true
      stream := transformedDataToStream ext filePath transformedData
      hash := some (recalculateHash ext filePath transformedData) }

/-- `transformLib.replaceHashedFilenames`: dispatch on the classified
content type; non-JS, non-CSS files pass through untouched. -/
def replaceHashedFilenames (ext : Ext) (fs : String → String) (digest : Digest)
    (filePath relName : String) : ReplaceResult :=
  let relativeDirPath := posixDirname relName
  let contentType := getContentType ext.mime filePath
  if contentType = CONTENT_TYPE_JS then
    transformFile ext fs filePath (replaceHashedFilenamesInJs digest relativeDirPath)
  else if contentType = CONTENT_TYPE_CSS then
    transformFile ext fs filePath (replaceHashedFilenamesInCss digest relativeDirPath)
  else
    { transformed := false, stream := fs filePath, hash := none }

/-! ### `index.js`: the `S3Sync` orchestrator -/

/-- A JavaScript `RegExp` as used by `S3Sync` for the
`hashedOriginalFileRegexp` option: only `.test(name)` and
`name.replace(regexp, '$2')` (stripping the embedded hash) are ever
applied to it, so it is modelled by those two observable operations. -/
structure JsRegexp where
  test : String → Bool
  strip : String → String

/-- Header objects (`S3UploadHeaders` and the params of `Object.assign`),
modelled as string-keyed maps. -/
def Headers : Type := String → Option String

/-- The empty header object `{}`. -/
def emptyHeaders : Headers := fun _ => none

/-- `Object.assign(a, b)` for string-keyed objects: properties of `b`
overwrite those of `a`. -/
def hAssign (a b : Headers) : Headers :=
  fun k => match b k with
  | some v => some v
  | none => a k

/-- `DEFAULT_ACL = 'public-read'`. -/
def DEFAULT_ACL : String := "public-read"

/-- `DEFAULT_GZIP_HEADERS`. -/
def DEFAULT_GZIP_HEADERS : Headers :=
  fun k =>
    if k = "ContentEncoding" then some "gzip"
    else if k = "CacheControl" then some "max-age=31536000"
    else none

/-- The per-instance state of the `S3Sync` class: the configuration drawn
from `S3SyncConfig`/`S3SyncOptions` in the constructor, plus the three
per-run mutable fields set by `reset`.  The `prefix` option is named `pfx`
(the source's name is reserved here). -/
structure S3Sync where
  bucket : String
  path : String
  digestFileKey : String
  pfx : String
  headers : Headers
  gzipHeaders : Headers
  noUpload : Bool
  noUploadDigestFile : Bool
  noUploadOriginalFiles : Bool
  noUploadHashedFiles : Bool
  gzipHashedFileKeyRegexp : Option (String → Bool)
  hashedOriginalFileRegexp : Option JsRegexp
  includePseudoUnhashedOriginalFilesInDigest : Bool
  gatheredFilePaths : List String
  filePathToEtagMap : String → Option String
  digest : Digest

/-- `S3Sync.reset`: the three per-run fields back to their initial empty
values. -/
def reset (st : S3Sync) : S3Sync :=
  { st with
    gatheredFilePaths := []
    filePathToEtagMap := fun _ => none
    digest := emptyDigest }

/-- `S3Sync.relativeFileName`: strip the base path and one separator
(`path.sep = "/"`). -/
def relativeFileName (st : S3Sync) (filePath : String) : String :=
  ⟨filePath.data.drop (st.path.data.length + 1)⟩

/-- `S3Sync.s3KeyForRelativeFileName`: `path.posix.join(this.prefix, fileName)`. -/
def s3KeyForRelativeFileName (st : S3Sync) (fileName : String) : String :=
  posixJoin st.pfx fileName

/-- `S3Sync.isHashedFileName`: test against `hashedOriginalFileRegexp`
when configured, `false` otherwise. -/
def isHashedFileName (st : S3Sync) (fileName : String) : Bool :=
  match st.hashedOriginalFileRegexp with
  | some r => r.test fileName
  | none => false

/-- `S3Sync.unhashedFileName`: `hashedFileName.replace(regexp, '$2')`,
stripping the embedded hash (only ever invoked when the regexp is
configured). -/
def unhashedFileName (st : S3Sync) (hashedFileName : String) : String :=
  match st.hashedOriginalFileRegexp with
  | some r => r.strip hashedFileName
  | none => hashedFileName

/-- `S3Sync.shouldGzipHashedFileKey`: test against
`gzipHashedFileKeyRegexp` when it is a `RegExp`, `false` otherwise. -/
def shouldGzipHashedFileKey (st : S3Sync) (originalFileKey : String) : Bool :=
  match st.gzipHashedFileKeyRegexp with
  | some r => r originalFileKey
  | none => false

/-- `S3Sync.addFileToDigest`: hash the file, record the etag, and either
pass the pre-hashed name through (optionally together with its
pseudo-unhashed alias) or splice the hash into the key, appending `.gz`
when the gzip-on-hash pattern matches the original key.  The source
mutates `this.filePathToEtagMap` before computing the names; since those
computations read only immutable configuration, the updates are gathered
into one state update per branch here. -/
def addFileToDigest (st : S3Sync) (ext : Ext) (fs : String → String)
    (filePath : String) : S3Sync :=
  let hash := hashFromFile ext fs filePath
  let etags := fun p => if p = filePath then some hash else st.filePathToEtagMap p
  let originalFileName := relativeFileName st filePath
  let originalFileKey := s3KeyForRelativeFileName st originalFileName
  if isHashedFileName st originalFileName then
    let d1 :=
      if st.includePseudoUnhashedOriginalFilesInDigest then
        digestInsert st.digest (unhashedFileName st originalFileName) originalFileKey
      else st.digest
    { st with
      filePathToEtagMap := etags
      digest := digestInsert d1 originalFileName originalFileKey }
  else
    let hashedKey := hashedFileKey originalFileKey hash
    let hashedKey := if shouldGzipHashedFileKey st originalFileKey then hashedKey ++ ".gz" else hashedKey
    { st with
      filePathToEtagMap := etags
      digest := digestInsert st.digest originalFileName hashedKey }

/-- `S3Sync.fileHeaders`: `Object.assign(defaultHeaders, this.headers,
fileHeaders, gzipHeaders)` — later sources overwrite earlier ones. -/
def fileHeaders (st : S3Sync) (ext : Ext) (filePath : String) : Headers :=
  let defaultHeaders : Headers :=
    fun k =>
      if k = "ACL" then some DEFAULT_ACL
      else if k = "Bucket" then some st.bucket
      else none
  let fileH : Headers :=
    fun k => if k = "ContentType" then some (getContentType ext.mime filePath) else none
  let gzipH : Headers := if isGzipped filePath then st.gzipHeaders else emptyHeaders
  hAssign (hAssign (hAssign defaultHeaders st.headers) fileH) gzipH

/-! ### `index.js`: conditional check and uploads

The remote store (`AWS.S3`) is an external collaborator: `headObject` is a
function from its request parameters to an outcome (success, or an error
identified by its `name`), and `upload` is described by the parameters the
code would hand it. -/

/-- The parameters of the `headObject` call issued by `shouldUpload`. -/
structure HeadParams where
  bucket : String
  key : String
  ifNoneMatch : Option String
  deriving DecidableEq

/-- Outcome of `headObject`: success, or an error with a `name`. -/
inductive HeadOutcome where
  | found
  | errName (name : String)
  deriving DecidableEq

/-- The body handed to `AWS.S3.upload`: a byte stream, or the JSON
serialisation of the digest (for the manifest upload). -/
inductive UploadBody where
  | bytes (s : String)
  | digestJson (d : Digest)

/-- The parameters the code hands to `AWS.S3.upload`. -/
structure UploadParams where
  key : String
  body : UploadBody
  headers : Headers

/-- `S3Sync.shouldUpload`: skip under the global dry-run flag; otherwise
issue `headObject` with the local fingerprint as `IfNoneMatch` and map the
outcome — success (found, etag differs) and `NotFound` mean "upload",
`NotModified` means "skip", every other error is re-thrown. -/
def shouldUpload (st : S3Sync) (head : HeadParams → HeadOutcome)
    (key : String) (etag : Option String) : Except String Bool :=
  if st.noUpload then .ok false
  else
    match head { bucket := st.bucket, key := key, ifNoneMatch := etag } with
    | .found => .ok true
    | .errName n =>
      if n = "NotModified" then .ok false
      else if n = "NotFound" then .ok true
      else .error n

/-- `S3Sync.upload`: a no-op under the global dry-run flag, otherwise the
upload with the given parameters is issued. -/
def upload (st : S3Sync) (params : UploadParams) : Option UploadParams :=
  if st.noUpload then none else some params

/-- `S3Sync.uploadOriginalFile`: skip under `noUploadOriginalFiles` unless
the name is pre-hashed; otherwise run the conditional check with the
file's recorded etag and upload the raw file stream. -/
def uploadOriginalFile (st : S3Sync) (ext : Ext) (fs : String → String)
    (head : HeadParams → HeadOutcome) (filePath : String) :
    Except String (Option UploadParams) :=
  let originalFileName := relativeFileName st filePath
  let originalFileKey := s3KeyForRelativeFileName st originalFileName
  if st.noUploadOriginalFiles && !isHashedFileName st originalFileName then .ok none
  else
    match shouldUpload st head originalFileKey (st.filePathToEtagMap filePath) with
    | .error e => .error e
    | .ok false => .ok none
    | .ok true =>
      .ok (upload st
        { key := originalFileKey
          body := .bytes (fs filePath)
          headers := fileHeaders st ext filePath })

/-- The data `S3Sync.uploadHashedFile` has computed by the time it reaches
its conditional-check call. -/
structure UploadAttempt where
  key : String
  etag : Option String
  body : String
  headers : Headers

/-- The first half of `S3Sync.uploadHashedFile` (everything before the
`shouldUpload` call): resolve the hashed key from the digest, return
`none` on the three skip branches (no digest entry; hashed key equal to
the original key; `noUploadHashedFiles`), otherwise rewrite the file,
apply the gzip-on-hash compression and headers when the pattern matches
the original key, and compute the conditional-check etag as
`transformResult.hash || this.filePathToEtagMap[filePath]`. -/
def uploadHashedFilePlan (st : S3Sync) (ext : Ext) (fs : String → String)
    (filePath : String) : Option UploadAttempt :=
  let originalFileName := relativeFileName st filePath
  let originalFileKey := s3KeyForRelativeFileName st originalFileName
  match jsTruthy (st.digest originalFileName) with
  | none => none
  | some hashedKey =>
    if hashedKey = originalFileKey then none
    else if st.noUploadHashedFiles then none
    else
      let transformResult := replaceHashedFilenames ext fs st.digest filePath originalFileName
      let fileStream := transformResult.stream
      let headers := fileHeaders st ext filePath
      let fileStream :=
        if shouldGzipHashedFileKey st originalFileKey then ext.gzip fileStream else fileStream
      let headers :=
        if shouldGzipHashedFileKey st originalFileKey then hAssign headers st.gzipHeaders
        else headers
      let etag := jsOr transformResult.hash (st.filePathToEtagMap filePath)
      some { key := hashedKey, etag := etag, body := fileStream, headers := headers }

/-- `S3Sync.uploadHashedFile`: the skip branches issue no remote call at
all; otherwise the conditional check decides whether the upload with the
planned key, body and headers is issued. -/
def uploadHashedFile (st : S3Sync) (ext : Ext) (fs : String → String)
    (head : HeadParams → HeadOutcome) (filePath : String) :
    Except String (Option UploadParams) :=
  match uploadHashedFilePlan st ext fs filePath with
  | none => .ok none
  | some a =>
    match shouldUpload st head a.key a.etag with
    | .error e => .error e
    | .ok false => .ok none
    | .ok true => .ok (upload st { key := a.key, body := .bytes a.body, headers := a.headers })

/-- `S3Sync.uploadDigestFile`: skip under `noUploadDigestFile`, otherwise
upload the JSON-serialised digest under the configured key. -/
def uploadDigestFile (st : S3Sync) : Option UploadParams :=
  if st.noUploadDigestFile then none
  else
    upload st
      { key := st.digestFileKey
        body := .digestJson st.digest
        headers := fun k =>
          if k = "ACL" then some DEFAULT_ACL
          else if k = "Bucket" then some st.bucket
          else if k = "ContentType" then some "application/json"
          else none }

/-! ### `index.js`: the run pipeline -/

/-- The external world one `run` interacts with: the directory listing
(which may fail), the local filesystem, the hasher/codec/mime
collaborators, the remote `headObject` responder, and the remote `upload`
result for issued uploads (which may fail). -/
structure World where
  listFiles : Except String (List String)
  fs : String → String
  ext : Ext
  head : HeadParams → HeadOutcome
  put : UploadParams → Except String Unit

/-- `S3Sync.gatherFiles`: push the listed paths, or fail with the listing
error (carrying the state at failure time). -/
def gatherFiles (st : S3Sync) (w : World) : Except (String × S3Sync) S3Sync :=
  match w.listFiles with
  | .ok filePaths => .ok { st with gatheredFilePaths := st.gatheredFilePaths ++ filePaths }
  | .error e => .error (e, st)

/-- `S3Sync.addFilesToDigest`: `addFileToDigest` over the gathered paths in
order. -/
def addFilesToDigest (st : S3Sync) (w : World) : S3Sync :=
  st.gatheredFilePaths.foldl (fun s p => addFileToDigest s w.ext w.fs p) st

/-- Per-file sync step: the original-file upload and the hashed-file
upload, each followed by the remote put when an upload was issued; the
first error rejects. -/
def syncOne (st : S3Sync) (w : World) (filePath : String) : Except String Unit := do
  let r1 ← uploadOriginalFile st w.ext w.fs w.head filePath
  match r1 with
  | some params => w.put params
  | none => pure ()
  let r2 ← uploadHashedFile st w.ext w.fs w.head filePath
  match r2 with
  | some params => w.put params
  | none => pure ()

/-- `S3Sync.syncFiles`: the per-file sync steps in sequence. -/
def syncList (st : S3Sync) (w : World) : List String → Except String Unit
  | [] => .ok ()
  | p :: rest =>
    match syncOne st w p with
    | .ok _ => syncList st w rest
    | .error e => .error e

/-- The manifest-publication step of `run`. -/
def publishDigest (st : S3Sync) (w : World) : Except String Unit :=
  match uploadDigestFile st with
  | some params => w.put params
  | none => .ok ()

/-- `S3Sync.run`: gather → digest → sync → publish-manifest, resolving to
the digest, with `reset` applied unconditionally (the `finally` clause) to
the state regardless of which phase failed. -/
def run (st : S3Sync) (w : World) : Except String Digest × S3Sync :=
  match gatherFiles st w with
  | .error (e, st') => (.error e, reset st')
  | .ok st1 =>
    let st2 := addFilesToDigest st1 w
    match syncList st2 w st2.gatheredFilePaths with
    | .error e => (.error e, reset st2)
    | .ok _ =>
      match publishDigest st2 w with
      | .error e => (.error e, reset st2)
      | .ok _ => (.ok st2.digest, reset st2)

/-! ### Concrete instances used to evaluate the development -/

/-- An `S3Sync` instance with the default configuration (base path `"b"`,
no optional behaviour enabled), corresponding to
`new S3Sync({bucket: "bkt", ...}, {path: "b"})`. -/
def mockSync : S3Sync where
  bucket := "bkt"
  path := "b"
  digestFileKey := "asset-map.json"
  pfx := ""
  headers := emptyHeaders
  gzipHeaders := DEFAULT_GZIP_HEADERS
  noUpload := false
  noUploadDigestFile := false
  noUploadOriginalFiles := false
  noUploadHashedFiles := false
  gzipHashedFileKeyRegexp := none
  hashedOriginalFileRegexp := none
  includePseudoUnhashedOriginalFilesInDigest := false
  gatheredFilePaths := []
  filePathToEtagMap := fun _ => none
  digest := emptyDigest

/-- The digest of the specification's cross-reference example. -/
def exDigest : Digest :=
  digestInsert (digestInsert emptyDigest "css/a.css" "assets/css/a-H1.css")
    "img/b.png" "assets/img/b-H2.png"

/-- A filesystem holding one CSS file that references a digest entry. -/
def cexFs : String → String :=
  fun p => if p = "b/a.css" then "url(/i.png)" else ""

/-- An instance whose gzip-on-hash pattern matches the key `a.css`, with a
digest as the digest-build phase would have produced for it. -/
def cexGzipSync : S3Sync :=
  { mockSync with
    gzipHashedFileKeyRegexp := some (fun k => k = "a.css")
    digest := digestInsert (digestInsert emptyDigest "a.css" "a-HASH.css.gz") "i.png" "i-H.png"
    filePathToEtagMap := fun p => if p = "b/a.css" then some "origHash" else none }

/-- The same instance with the gzip-on-hash option absent. -/
def cexPlainSync : S3Sync :=
  { cexGzipSync with
    gzipHashedFileKeyRegexp := none
    digest := digestInsert (digestInsert emptyDigest "a.css" "a-HASH.css") "i.png" "i-H.png" }

/-- An instance whose gzip-on-hash pattern matches the extensionless key
`Makefile`. -/
def cexMakefileSync : S3Sync :=
  { mockSync with gzipHashedFileKeyRegexp := some (fun k => k = "Makefile") }

/-- A digest holding the hashed key of a sourcemap file. -/
def cexSmDigest : Digest :=
  digestInsert emptyDigest "a.css.map" "maps/a-H.css.map"

/-- A filesystem holding a CSS file that ends with the conventional
sourcemap comment, written with a space before the closing delimiter. -/
def cexSmFs : String → String :=
  fun p => if p = "b/a.css" then "x/*# sourceMappingURL=a.css.map */" else ""

/-- A filesystem holding just a `Makefile`. -/
def cexMakefileFs : String → String :=
  fun _ => "all:"

/-! ## Theorems -/

/-! ### Helper lemmas -/

theorem reset_fields (st : S3Sync) :
    (reset st).gatheredFilePaths = [] ∧
      (reset st).filePathToEtagMap = (fun _ => none) ∧ (reset st).digest = emptyDigest :=
  ⟨rfl, rfl, rfl⟩

theorem isDotWord_mem_dot {cs : List Char} (h : isDotWord cs = true) : '.' ∈ cs := by
  cases cs with
  | nil => simp [isDotWord] at h
  | cons c rest =>
    unfold isDotWord at h
    obtain ⟨hc, -⟩ := Bool.and_eq_true_iff.mp h
    rw [decide_eq_true_eq] at hc
    rw [hc]
    exact List.mem_cons_self _ _

theorem isExtSuffix_mem_dot {cs : List Char} (h : isExtSuffix cs = true) : '.' ∈ cs := by
  unfold isExtSuffix at h
  rcases Bool.or_eq_true_iff.mp h with h1 | h2
  · exact isDotWord_mem_dot h1
  · obtain ⟨i, -, hi⟩ := List.any_eq_true.mp h2
    obtain ⟨ht, -⟩ := Bool.and_eq_true_iff.mp hi
    exact List.take_subset i cs (isDotWord_mem_dot ht)

theorem extMatchStart_eq_none {cs : List Char} (h : '.' ∉ cs) : extMatchStart cs = none := by
  cases hfind : extMatchStart cs with
  | none => rfl
  | some i =>
    have hp := List.find?_some hfind
    exact absurd (List.drop_subset i cs (isExtSuffix_mem_dot hp)) h

/-! ### C5 -/

/-- C5: for every destination key ending in a one-or-two-segment dot
extension, `hashedFileKey` splices `-<hash>` immediately before that
trailing extension, leaving everything else unchanged; in particular
`hashedFileKey "app.min.js" "abc123" = "app-abc123.min.js"` and
`hashedFileKey "style.css" "abc123" = "style-abc123.css"`. -/
theorem hashedFileKey_splices_hash_before_extension :
    hashedFileKey "app.min.js" "abc123" = "app-abc123.min.js" ∧
    hashedFileKey "style.css" "abc123" = "style-abc123.css" ∧
    ∀ (s h : String), (extMatchStart s.data).isSome = true →
      ∃ stem ext, s = stem ++ ext ∧ isExtSuffix ext.data = true ∧
        hashedFileKey s h = stem ++ "-" ++ h ++ ext := by
  refine ⟨by decide, by decide, ?_⟩
  intro s h hsome
  obtain ⟨i, hi⟩ := Option.isSome_iff_exists.mp hsome
  have hp : isExtSuffix (s.data.drop i) = true := by
    unfold extMatchStart at hi
    have hq := List.find?_some hi
    exact hq
  refine ⟨⟨s.data.take i⟩, ⟨s.data.drop i⟩, ?_, hp, ?_⟩
  · show s = String.mk (s.data.take i) ++ String.mk (s.data.drop i)
    cases s with
    | mk data =>
      show String.mk data = String.mk (data.take i ++ data.drop i)
      rw [List.take_append_drop]
  · unfold hashedFileKey
    rw [hi]

/-- Witness for C5's general clause, at the spec's own `style.css`
example. -/
theorem hashedFileKey_splices_hash_before_extension_witness :
    (extMatchStart "style.css".data).isSome = true ∧
    (∃ stem ext, ("style.css" : String) = stem ++ ext ∧ isExtSuffix ext.data = true ∧
      hashedFileKey "style.css" "abc123" = stem ++ "-" ++ "abc123" ++ ext) :=
  ⟨by decide, hashedFileKey_splices_hash_before_extension.2.2 "style.css" "abc123" (by decide)⟩

/-! ### C8 -/

/-- C8: for every run of the orchestrator — whichever phase fails, or none
— the state returned alongside the result has the gathered-file list, the
fingerprint map and the digest reset to empty, so a subsequent run on the
same instance starts from empty state. -/
theorem run_resets_per_run_state (st : S3Sync) (w : World) :
    (run st w).2.gatheredFilePaths = [] ∧
    (run st w).2.filePathToEtagMap = (fun _ => none) ∧
    (run st w).2.digest = emptyDigest := by
  simp only [run]
  split
  · exact reset_fields _
  · split
    · exact reset_fields _
    · split
      · exact reset_fields _
      · exact reset_fields _

/-! ### C4 -/

/-- C4: with the dry-run flag off, the conditional pre-upload check issues
`headObject` with the local fingerprint as `IfNoneMatch`, and decides:
`NotFound` means upload (`true`), `NotModified` means skip (`false` — and
the caller then issues no upload for that key), and every other error
outcome is propagated to the caller. -/
theorem shouldUpload_decision (st : S3Sync) (head : HeadParams → HeadOutcome)
    (key : String) (etag : Option String) (hdry : st.noUpload = false) :
    (head { bucket := st.bucket, key := key, ifNoneMatch := etag } = .errName "NotFound" →
      shouldUpload st head key etag = .ok true) ∧
    (head { bucket := st.bucket, key := key, ifNoneMatch := etag } = .errName "NotModified" →
      shouldUpload st head key etag = .ok false) ∧
    (∀ e, head { bucket := st.bucket, key := key, ifNoneMatch := etag } = .errName e →
      e ≠ "NotFound" → e ≠ "NotModified" → shouldUpload st head key etag = .error e) ∧
    (∀ (ext : Ext) (fs : String → String) (filePath : String) (a : UploadAttempt),
      uploadHashedFilePlan st ext fs filePath = some a → a.key = key → a.etag = etag →
      head { bucket := st.bucket, key := key, ifNoneMatch := etag } = .errName "NotModified" →
      uploadHashedFile st ext fs head filePath = .ok none) := by
  refine ⟨?_, ?_, ?_, ?_⟩
  · intro hh
    unfold shouldUpload
    rw [hdry, if_neg Bool.false_ne_true, hh]
    rfl
  · intro hh
    unfold shouldUpload
    rw [hdry, if_neg Bool.false_ne_true, hh]
    rfl
  · intro e hh hnf hnm
    unfold shouldUpload
    rw [hdry, if_neg Bool.false_ne_true, hh]
    simp [hnf, hnm]
  · intro ext fs filePath a hplan hkey hetag hh
    have hsu : shouldUpload st head a.key a.etag = .ok false := by
      unfold shouldUpload
      rw [hdry, if_neg Bool.false_ne_true, hkey, hetag, hh]
      rfl
    unfold uploadHashedFile
    rw [hplan]
    dsimp only
    rw [hsu]

/-- Witness for C4 at a concrete configuration and remote responder. -/
theorem shouldUpload_decision_witness :
    mockSync.noUpload = false ∧
    shouldUpload mockSync (fun _ => .errName "NotFound") "k" (some "e") = .ok true :=
  ⟨rfl,
    (shouldUpload_decision mockSync (fun _ => .errName "NotFound") "k" (some "e") rfl).1 rfl⟩

/-! ### C3 -/

/-- C3: when the configured pre-hashed naming pattern matches a discovered
file's relative name, the digest build maps that name to its own unmodified
destination key, and exactly when pseudo-unhashed aliasing is enabled it
additionally inserts a second entry mapping the hash-stripped name to the
same key (no other digest entry is touched in either mode). -/
theorem addFileToDigest_prehashed_passthrough (st : S3Sync) (ext : Ext)
    (fs : String → String) (filePath : String)
    (hmatch : isHashedFileName st (relativeFileName st filePath) = true) :
    (addFileToDigest st ext fs filePath).digest (relativeFileName st filePath) =
      some (s3KeyForRelativeFileName st (relativeFileName st filePath)) ∧
    (st.includePseudoUnhashedOriginalFilesInDigest = true →
      (addFileToDigest st ext fs filePath).digest
          (unhashedFileName st (relativeFileName st filePath)) =
        some (s3KeyForRelativeFileName st (relativeFileName st filePath))) ∧
    (st.includePseudoUnhashedOriginalFilesInDigest = false →
      ∀ m, m ≠ relativeFileName st filePath →
        (addFileToDigest st ext fs filePath).digest m = st.digest m) ∧
    (st.includePseudoUnhashedOriginalFilesInDigest = true →
      ∀ m, m ≠ relativeFileName st filePath →
        m ≠ unhashedFileName st (relativeFileName st filePath) →
        (addFileToDigest st ext fs filePath).digest m = st.digest m) := by
  simp only [addFileToDigest, hmatch, if_true]
  set name := relativeFileName st filePath with hname
  set key := s3KeyForRelativeFileName st name with hkey
  by_cases hps : st.includePseudoUnhashedOriginalFilesInDigest = true
  · rw [if_pos hps]
    refine ⟨?_, ?_, ?_, ?_⟩
    · simp [digestInsert]
    · intro _
      by_cases heq : unhashedFileName st name = name
      · simp [digestInsert, heq]
      · simp [digestInsert, heq]
    · intro hps'
      rw [hps] at hps'
      simp at hps'
    · intro _ m hm1 hm2
      simp [digestInsert, hm1, hm2]
  · rw [if_neg hps]
    rw [Bool.not_eq_true] at hps
    refine ⟨?_, ?_, ?_, ?_⟩
    · simp [digestInsert]
    · intro hps'
      rw [hps] at hps'
      simp at hps'
    · intro _ m hm1
      simp [digestInsert, hm1]
    · intro hps'
      rw [hps] at hps'
      simp at hps'

/-- Witness for C3 at a concrete pre-hashed pattern (both aliasing
modes). -/
theorem addFileToDigest_prehashed_passthrough_witness :
    (isHashedFileName
        { mockSync with
          hashedOriginalFileRegexp :=
            some { test := fun s => s = "app-abc.js", strip := fun _ => "app.js" }
          includePseudoUnhashedOriginalFilesInDigest := true }
        (relativeFileName
          { mockSync with
            hashedOriginalFileRegexp :=
              some { test := fun s => s = "app-abc.js", strip := fun _ => "app.js" }
            includePseudoUnhashedOriginalFilesInDigest := true } "b/app-abc.js") = true) ∧
    ((addFileToDigest
        { mockSync with
          hashedOriginalFileRegexp :=
            some { test := fun s => s = "app-abc.js", strip := fun _ => "app.js" }
          includePseudoUnhashedOriginalFilesInDigest := true }
        mockExt cexMakefileFs "b/app-abc.js").digest
      (relativeFileName
        { mockSync with
          hashedOriginalFileRegexp :=
            some { test := fun s => s = "app-abc.js", strip := fun _ => "app.js" }
          includePseudoUnhashedOriginalFilesInDigest := true } "b/app-abc.js") =
      some (s3KeyForRelativeFileName
        { mockSync with
          hashedOriginalFileRegexp :=
            some { test := fun s => s = "app-abc.js", strip := fun _ => "app.js" }
          includePseudoUnhashedOriginalFilesInDigest := true }
        (relativeFileName
          { mockSync with
            hashedOriginalFileRegexp :=
              some { test := fun s => s = "app-abc.js", strip := fun _ => "app.js" }
            includePseudoUnhashedOriginalFilesInDigest := true } "b/app-abc.js"))) :=
  ⟨by decide,
    (addFileToDigest_prehashed_passthrough _ mockExt cexMakefileFs "b/app-abc.js"
      (by decide)).1⟩

/-! ### Scanner helper lemmas -/

theorem contains_eq_false_of_not_mem {l : List Char} {c : Char} (h : c ∉ l) :
    l.contains c = false :=
  (Bool.not_eq_true _).mp (fun hc => h (List.mem_of_elem_eq_true hc))

theorem takeWhile_append_sat {q : Char → Bool} :
    ∀ {p : List Char} {x : Char} {t : List Char}, (∀ a ∈ p, q a = true) → q x = false →
      (p ++ x :: t).takeWhile q = p := by
  intro p
  induction p with
  | nil =>
    intro x t _ hx
    simp [List.takeWhile_cons, hx]
  | cons c p' ih =>
    intro x t hall hx
    have hc : q c = true := hall c (List.mem_cons_self _ _)
    rw [List.cons_append, List.takeWhile_cons, if_pos hc,
      ih (fun a ha => hall a (List.mem_cons_of_mem _ ha)) hx]

theorem dropWhile_append_sat {q : Char → Bool} :
    ∀ {p : List Char} {x : Char} {t : List Char}, (∀ a ∈ p, q a = true) → q x = false →
      (p ++ x :: t).dropWhile q = x :: t := by
  intro p
  induction p with
  | nil =>
    intro x t _ hx
    simp [List.dropWhile_cons, hx]
  | cons c p' ih =>
    intro x t hall hx
    have hc : q c = true := hall c (List.mem_cons_self _ _)
    rw [List.cons_append, List.dropWhile_cons, if_pos hc]
    exact ih (fun a ha => hall a (List.mem_cons_of_mem _ ha)) hx

theorem cssUrlMatchAt_length {cs u after : List Char}
    (h : cssUrlMatchAt cs = some (u, after)) : after.length + 6 ≤ cs.length := by
  simp only [cssUrlMatchAt] at h
  split at h
  case isFalse => exact absurd h (by simp)
  case isTrue hp =>
    have h5 : 5 ≤ cs.length := by
      have := List.IsPrefix.length_le (List.isPrefixOf_iff_prefix.mp hp)
      simpa using this
    split at h
    case h_2 => exact absurd h (by simp)
    case h_1 x after' heq =>
      split at h
      case isTrue => exact absurd h (by simp)
      case isFalse hne =>
        have ha : after' = after := by
          have := (Option.some.inj h)
          exact congrArg Prod.snd this
        have hsplit := List.takeWhile_append_dropWhile
          (p := fun c => decide (c ≠ ')')) (l := cs.drop 5)
        rw [heq] at hsplit
        have hlen := congrArg List.length hsplit
        simp only [List.length_append, List.length_cons, List.length_drop] at hlen
        have hne' : 1 ≤ ((cs.drop 5).takeWhile (fun c => decide (c ≠ ')'))).length := by
          cases htw : (cs.drop 5).takeWhile (fun c => decide (c ≠ ')')) with
          | nil => rw [htw] at hne; simp at hne
          | cons _ _ => simp
        subst ha
        omega

theorem cssUrlGo_nil (d : Digest) (n : Nat) : cssUrlGo d n [] = [] := by
  cases n <;> rfl

theorem cssUrlGo_stable (d : Digest) :
    ∀ (n : Nat) {m : Nat} {cs : List Char}, cs.length ≤ n → cs.length ≤ m →
      cssUrlGo d n cs = cssUrlGo d m cs := by
  intro n
  induction n with
  | zero =>
    intro m cs hn _
    have : cs = [] := List.length_eq_zero.mp (Nat.le_zero.mp hn)
    subst this
    rw [cssUrlGo_nil, cssUrlGo_nil]
  | succ n ih =>
    intro m cs hn hm
    cases cs with
    | nil => rw [cssUrlGo_nil, cssUrlGo_nil]
    | cons c rest =>
      cases m with
      | zero => simp at hm
      | succ m' =>
        cases hmt : cssUrlMatchAt (c :: rest) with
        | some p =>
          obtain ⟨u, after⟩ := p
          have hlen := cssUrlMatchAt_length hmt
          simp only [List.length_cons] at hlen hn hm
          simp only [cssUrlGo, hmt]
          exact congrArg (fun l => cssUrlRepl d u ++ l) (ih (by omega) (by omega))
        | none =>
          simp only [List.length_cons] at hn hm
          simp only [cssUrlGo, hmt]
          exact congrArg (fun l => c :: l) (ih (by omega) (by omega))

theorem cssUrlGo_cons_none {d : Digest} {c : Char} {rest : List Char}
    (h : cssUrlMatchAt (c :: rest) = none) :
    cssUrlGo d (c :: rest).length (c :: rest) = c :: cssUrlGo d rest.length rest := by
  simp only [List.length_cons, cssUrlGo, h]

theorem cssUrlGo_full_some {d : Digest} {cs u after : List Char}
    (h : cssUrlMatchAt cs = some (u, after)) :
    cssUrlGo d cs.length cs = cssUrlRepl d u ++ cssUrlGo d after.length after := by
  cases cs with
  | nil =>
    have hnone : cssUrlMatchAt ([] : List Char) = none := rfl
    rw [hnone] at h
    exact absurd h (by simp)
  | cons c rest =>
    have hlen := cssUrlMatchAt_length h
    simp only [List.length_cons] at hlen
    simp only [List.length_cons, cssUrlGo, h]
    exact congrArg (fun l => cssUrlRepl d u ++ l)
      (cssUrlGo_stable d rest.length (by omega) (by omega))

theorem cssUrlLit_prefix_get3 {l : List Char} (h : cssUrlLit.isPrefixOf l = true) :
    l.get? 3 = some '(' := by
  obtain ⟨t, ht⟩ := List.isPrefixOf_iff_prefix.mp h
  rw [← ht]
  rfl

theorem cssUrlMatchAt_none_boundary {pre rest : List Char}
    (hpre : '(' ∉ pre) (hne : pre ≠ []) :
    cssUrlMatchAt (pre ++ cssUrlLit ++ rest) = none := by
  simp only [cssUrlMatchAt]
  split
  case isFalse => rfl
  case isTrue hp =>
    exfalso
    have hg := cssUrlLit_prefix_get3 hp
    by_cases h3 : 3 < pre.length
    · rw [List.append_assoc, List.get?_append h3] at hg
      exact hpre (List.get?_mem hg)
    · have hlp : 1 ≤ pre.length := by
        cases pre with
        | nil => exact absurd rfl hne
        | cons _ _ => simp
      rw [List.append_assoc, List.get?_append_right (by omega)] at hg
      have hidx : 3 - pre.length = 0 ∨ 3 - pre.length = 1 ∨ 3 - pre.length = 2 := by omega
      rcases hidx with h | h | h <;> rw [h] at hg <;> simp [cssUrlLit] at hg

theorem cssUrlMatchAt_start {p post : List Char} (hp : p ≠ []) (hpc : ')' ∉ p) :
    cssUrlMatchAt (cssUrlLit ++ (p ++ ')' :: post)) = some (p, post) := by
  have hall : ∀ a ∈ p, (fun c => decide (c ≠ ')')) a = true := by
    intro a ha
    simp only [decide_eq_true_eq]
    intro hcontra
    exact hpc (hcontra ▸ ha)
  have hx : (fun c => decide (c ≠ ')')) ')' = false := by simp
  simp only [cssUrlMatchAt]
  rw [if_pos (List.isPrefixOf_iff_prefix.mpr ⟨p ++ ')' :: post, rfl⟩)]
  have hdrop : (cssUrlLit ++ (p ++ ')' :: post)).drop 5 = p ++ ')' :: post := by
    have : cssUrlLit.length = 5 := rfl
    rw [← this, List.drop_left]
  rw [hdrop, takeWhile_append_sat hall hx, dropWhile_append_sat hall hx]
  simp [List.isEmpty_eq_true, hp]

theorem cssUrlGo_occurrence (d : Digest) :
    ∀ (pre p post : List Char), '(' ∉ pre → p ≠ [] → ')' ∉ p →
      cssUrlGo d (pre ++ cssUrlLit ++ (p ++ ')' :: post)).length
          (pre ++ cssUrlLit ++ (p ++ ')' :: post)) =
        pre ++ cssUrlRepl d p ++ cssUrlGo d post.length post := by
  intro pre
  induction pre with
  | nil =>
    intro p post _ hp hpc
    simp only [List.nil_append]
    rw [cssUrlGo_full_some (cssUrlMatchAt_start hp hpc)]
  | cons c pre' ih =>
    intro p post hpre hp hpc
    have hpre' : '(' ∉ pre' := fun hm => hpre (List.mem_cons_of_mem _ hm)
    have hb : cssUrlMatchAt ((c :: pre') ++ cssUrlLit ++ (p ++ ')' :: post)) = none :=
      cssUrlMatchAt_none_boundary hpre (by simp)
    have hshape : (c :: pre') ++ cssUrlLit ++ (p ++ ')' :: post) =
        c :: (pre' ++ cssUrlLit ++ (p ++ ')' :: post)) := rfl
    rw [hshape] at hb ⊢
    rw [cssUrlGo_cons_none hb, ih p post hpre' hp hpc]
    rfl

/-! ### C2 -/

/-- C2: in a CSS file rewritten against a completed digest (whose values
are non-empty), an occurrence `url(/<path>)` is replaced by
`url(/<hashedKey>)` exactly when `<path>` is literally a key of the digest,
`<hashedKey>` being the digest's value for that key, and an occurrence
whose `<path>` is not a digest key is left byte-for-byte unchanged; in
particular with digest entry `img/b.png ↦ assets/img/b-H2.png` the
occurrence `url(/img/b.png)` becomes `url(/assets/img/b-H2.png)` while an
unmatched occurrence stays as it is. -/
theorem cssUrlReplace_digest_occurrences :
    (∀ (d : Digest) (pre p post : List Char), '(' ∉ pre → p ≠ [] → ')' ∉ p →
      (∀ v : String, d ⟨p⟩ = some v → v ≠ "" →
        cssUrlReplace d ⟨pre ++ cssUrlLit ++ (p ++ ')' :: post)⟩ =
          ⟨pre ++ cssUrlLit ++ (v.data ++ ')' :: cssUrlGo d post.length post)⟩) ∧
      (d ⟨p⟩ = none →
        cssUrlReplace d ⟨pre ++ cssUrlLit ++ (p ++ ')' :: post)⟩ =
          ⟨pre ++ cssUrlLit ++ (p ++ ')' :: cssUrlGo d post.length post)⟩)) ∧
    cssUrlReplace exDigest "x url(/img/b.png) y url(/img/c.png) z" =
      "x url(/assets/img/b-H2.png) y url(/img/c.png) z" := by
  refine ⟨?_, by decide⟩
  intro d pre p post hpre hp hpc
  have hocc := cssUrlGo_occurrence d pre p post hpre hp hpc
  constructor
  · intro v hv hvne
    have hrepl : cssUrlRepl d p = cssUrlLit ++ v.data ++ [')'] := by
      simp [cssUrlRepl, jsTruthy, hv, hvne]
    apply congrArg String.mk
    show cssUrlGo d (pre ++ cssUrlLit ++ (p ++ ')' :: post)).length
        (pre ++ cssUrlLit ++ (p ++ ')' :: post)) = _
    rw [hocc, hrepl]
    simp [List.append_assoc]
  · intro hv
    have hrepl : cssUrlRepl d p = cssUrlLit ++ p ++ [')'] := by
      simp [cssUrlRepl, jsTruthy, hv]
    apply congrArg String.mk
    show cssUrlGo d (pre ++ cssUrlLit ++ (p ++ ')' :: post)).length
        (pre ++ cssUrlLit ++ (p ++ ')' :: post)) = _
    rw [hocc, hrepl]
    simp [List.append_assoc]

/-! ### Sourcemap scanner helper lemmas -/

theorem findFrom_start {f : List Char → Option α} {cs : List Char} {a : α}
    (h : f cs = some a) (i : Nat) : findFrom f cs i = some (i, a) := by
  cases cs with
  | nil => simp [findFrom, h]
  | cons c rest => simp [findFrom, h]

theorem findFrom_append_fail {f : List Char → Option α} :
    ∀ (pre rest : List Char) (i : Nat),
      (∀ j, j < pre.length → f (pre.drop j ++ rest) = none) →
      findFrom f (pre ++ rest) i = findFrom f rest (i + pre.length) := by
  intro pre
  induction pre with
  | nil =>
    intro rest i _
    simp
  | cons c pre' ih =>
    intro rest i h
    have h0 : f ((c :: pre') ++ rest) = none := h 0 (by simp)
    rw [show ((c :: pre') ++ rest) = c :: (pre' ++ rest) from rfl] at h0 ⊢
    rw [findFrom, h0]
    rw [ih rest (i + 1) (fun j hj => h (j + 1) (by simpa using hj))]
    have harith : i + 1 + pre'.length = i + (c :: pre').length := by
      simp only [List.length_cons]
      omega
    rw [harith]

theorem cssSmLit_prefix_get1 {l : List Char} (h : cssSmLit.isPrefixOf l = true) :
    l.get? 1 = some '*' := by
  obtain ⟨t, ht⟩ := List.isPrefixOf_iff_prefix.mp h
  rw [← ht]
  rfl

theorem cssSmMatchAt_start {name : List Char} (h1 : name ≠ []) (h2 : '*' ∉ name) :
    cssSmMatchAt (cssSmLit ++ (name ++ ['*', '/'])) = some name := by
  simp only [cssSmMatchAt]
  rw [if_pos (List.isPrefixOf_iff_prefix.mpr ⟨_, rfl⟩)]
  have hdrop : (cssSmLit ++ (name ++ ['*', '/'])).drop 21 = name ++ ['*', '/'] := by
    have h21 : cssSmLit.length = 21 := rfl
    rw [← h21, List.drop_left]
  rw [hdrop]
  have hlen : (name ++ ['*', '/']).length - 2 = name.length := by simp
  rw [hlen, List.take_left, List.drop_left]
  simp [h1, h2]

theorem cssSmMatchAt_none_boundary {pre R : List Char} (hpre : '*' ∉ pre)
    (hR : ∃ t, R = cssSmLit ++ t) :
    ∀ j, j < pre.length → cssSmMatchAt (pre.drop j ++ R) = none := by
  intro j hj
  simp only [cssSmMatchAt]
  split
  case isFalse => rfl
  case isTrue hp =>
    exfalso
    have hg := cssSmLit_prefix_get1 hp
    have hdl : (pre.drop j).length = pre.length - j := List.length_drop j pre
    by_cases h1 : 1 < (pre.drop j).length
    · rw [List.get?_append h1] at hg
      exact hpre (List.drop_subset j pre (List.get?_mem hg))
    · have hone : (pre.drop j).length = 1 := by omega
      rw [List.get?_append_right (by omega), hone] at hg
      obtain ⟨t, ht⟩ := hR
      rw [ht] at hg
      have : (cssSmLit ++ t).get? 0 = some '/' := by
        rw [List.get?_append (by decide)]
        rfl
      rw [this] at hg
      exact absurd (Option.some.inj hg) (by decide)

theorem jsSmMatchAt_start {name : List Char} (h1 : name ≠ []) (h2 : '\n' ∉ name) :
    jsSmMatchAt (jsSmLit ++ name) = some name := by
  simp only [jsSmMatchAt]
  rw [if_pos (List.isPrefixOf_iff_prefix.mpr ⟨_, rfl⟩)]
  have hdrop : (jsSmLit ++ name).drop 21 = name := by
    have h21 : jsSmLit.length = 21 := rfl
    rw [← h21, List.drop_left]
  rw [hdrop]
  simp [h1, h2]

theorem jsSmMatchAt_none_boundary {pre R : List Char} (hpre : pre.getLast? = some '\n') :
    ∀ j, j < pre.length → jsSmMatchAt (pre.drop j ++ R) = none := by
  intro j hj
  have hdl : (pre.drop j).length = pre.length - j := List.length_drop j pre
  have hnl : (pre.drop j ++ R).get? (pre.length - j - 1) = some '\n' := by
    rw [List.get?_append (by omega), List.get?_drop]
    rw [List.getLast?_eq_get? pre] at hpre
    rw [show j + (pre.length - j - 1) = pre.length - 1 by omega]
    exact hpre
  simp only [jsSmMatchAt]
  split
  case isFalse => rfl
  case isTrue hp =>
    by_cases hk : pre.length - j - 1 < 21
    · exfalso
      obtain ⟨t, ht⟩ := List.isPrefixOf_iff_prefix.mp hp
      rw [← ht, List.get?_append (by rw [show jsSmLit.length = 21 from rfl]; omega)] at hnl
      have : '\n' ∈ jsSmLit := List.get?_mem hnl
      exact absurd this (by decide)
    · have hcontains : ((pre.drop j ++ R).drop 21).contains '\n' = true := by
        have : ((pre.drop j ++ R).drop 21).get? (pre.length - j - 1 - 21) = some '\n' := by
          rw [List.get?_drop]
          rw [show 21 + (pre.length - j - 1 - 21) = pre.length - j - 1 by omega]
          exact hnl
        exact List.elem_eq_true_of_mem (List.get?_mem this)
      rw [hcontains]
      simp

/-- Witness for C2's general clauses at the spec's example digest. -/
theorem cssUrlReplace_digest_occurrences_witness :
    ('(' ∉ "body: ".data ∧ "img/b.png".data ≠ [] ∧ ')' ∉ "img/b.png".data ∧
      exDigest ⟨"img/b.png".data⟩ = some "assets/img/b-H2.png" ∧
      ("assets/img/b-H2.png" : String) ≠ "") ∧
    cssUrlReplace exDigest ⟨"body: ".data ++ cssUrlLit ++ ("img/b.png".data ++ ')' :: [])⟩ =
      ⟨"body: ".data ++ cssUrlLit ++
        ("assets/img/b-H2.png".data ++ ')' :: cssUrlGo exDigest ([] : List Char).length [])⟩ :=
  ⟨⟨by decide, by decide, by decide, by decide, by decide⟩,
    ((cssUrlReplace_digest_occurrences.1 exDigest "body: ".data "img/b.png".data []
        (by decide) (by decide) (by decide)).1 "assets/img/b-H2.png" (by decide) (by decide))⟩

/-! ### C6 -/

/-- C6 counterexample: a CSS file ending in the claim's comment form
`/*# sourceMappingURL=<name> */` — with the conventional space before
`*/` — is left untouched even though the digest contains the directory-
joined key for `<name>` with a different basename: the capture group
`([^*]+)` extends through the space, so the lookup key carries a trailing
space and misses the digest. -/
theorem cssSourceMap_space_form_not_rewritten :
    (replaceHashedFilenames mockExt cexSmFs cexSmDigest "b/a.css" "a.css").transformed = false ∧
    (replaceHashedFilenames mockExt cexSmFs cexSmDigest "b/a.css" "a.css").stream =
      "x/*# sourceMappingURL=a.css.map */" ∧
    cexSmDigest (posixJoin (posixDirname "a.css") "a.css.map") = some "maps/a-H.css.map" ∧
    posixBasename "maps/a-H.css.map" ≠ "a.css.map" := by
  refine ⟨by decide, by decide, by decide, by decide⟩

/-- C6 (amended): the capture for the CSS sourcemap comment extends to the
character just before the closing `*/` (so the comment must be written
without a space, `/*# sourceMappingURL=<name>*/`, for the lookup to use
`<name>` itself); with that form, and for the JavaScript trailing
`//# sourceMappingURL=<name>` comment exactly as claimed, `<name>` is
replaced by the basename of the digest value for the directory-joined key
whenever that key is present in the digest (with a truthy value and
non-empty basename), and the comment is left untouched when the joined key
is absent. -/
theorem sourceMapReplace_directory_lookup :
    (∀ (d : Digest) (dir : String) (pre name : List Char),
      '*' ∉ pre → name ≠ [] → '*' ∉ name →
      (∀ v : String, jsTruthy (d (posixJoin dir ⟨name⟩)) = some v → posixBasename v ≠ "" →
        cssSourceMapReplace d dir ⟨pre ++ (cssSmLit ++ (name ++ ['*', '/']))⟩ =
          ⟨pre⟩ ++ "/*# sourceMappingURL=" ++ posixBasename v ++ "*/") ∧
      (jsTruthy (d (posixJoin dir ⟨name⟩)) = none →
        cssSourceMapReplace d dir ⟨pre ++ (cssSmLit ++ (name ++ ['*', '/']))⟩ =
          ⟨pre ++ (cssSmLit ++ (name ++ ['*', '/']))⟩)) ∧
    (∀ (d : Digest) (dir : String) (pre name : List Char),
      pre = [] ∨ pre.getLast? = some '\n' → name ≠ [] → '\n' ∉ name →
      (∀ v : String, jsTruthy (d (posixJoin dir ⟨name⟩)) = some v → posixBasename v ≠ "" →
        replaceHashedFilenamesInJs d dir ⟨pre ++ (jsSmLit ++ name)⟩ =
          ⟨pre⟩ ++ "//# sourceMappingURL=" ++ posixBasename v) ∧
      (jsTruthy (d (posixJoin dir ⟨name⟩)) = none →
        replaceHashedFilenamesInJs d dir ⟨pre ++ (jsSmLit ++ name)⟩ =
          ⟨pre ++ (jsSmLit ++ name)⟩)) := by
  constructor
  · intro d dir pre name hpre h1 h2
    have hfind : findFrom cssSmMatchAt (pre ++ (cssSmLit ++ (name ++ ['*', '/']))) 0 =
        some (pre.length, name) := by
      rw [findFrom_append_fail pre _ 0
        (cssSmMatchAt_none_boundary hpre ⟨name ++ ['*', '/'], rfl⟩)]
      rw [findFrom_start (cssSmMatchAt_start h1 h2)]
      simp
    constructor
    · intro v hv hb
      simp only [cssSourceMapReplace, hfind, hashedSourceMapFileBaseName, hv]
      rw [if_neg hb]
      rw [List.take_left]
    · intro hv
      simp only [cssSourceMapReplace, hfind, hashedSourceMapFileBaseName, hv]
  · intro d dir pre name hpre h1 h2
    have hfind : findFrom jsSmMatchAt (pre ++ (jsSmLit ++ name)) 0 =
        some (pre.length, name) := by
      rcases hpre with hnil | hlast
      · subst hnil
        rw [List.nil_append, findFrom_start (jsSmMatchAt_start h1 h2)]
        simp
      · rw [findFrom_append_fail pre _ 0 (jsSmMatchAt_none_boundary hlast)]
        rw [findFrom_start (jsSmMatchAt_start h1 h2)]
        simp
    constructor
    · intro v hv hb
      simp only [replaceHashedFilenamesInJs, jsSourceMapReplace, hfind,
        hashedSourceMapFileBaseName, hv]
      rw [if_neg hb]
      rw [List.take_left]
    · intro hv
      simp only [replaceHashedFilenamesInJs, jsSourceMapReplace, hfind,
        hashedSourceMapFileBaseName, hv]

/-- Witness for C6's amended theorem at a concrete digest, for the
no-space CSS comment form. -/
theorem sourceMapReplace_directory_lookup_witness :
    ('*' ∉ "x".data ∧ "a.css.map".data ≠ [] ∧ '*' ∉ "a.css.map".data ∧
      jsTruthy (cexSmDigest (posixJoin "." ⟨"a.css.map".data⟩)) = some "maps/a-H.css.map" ∧
      posixBasename "maps/a-H.css.map" ≠ "") ∧
    cssSourceMapReplace cexSmDigest "." ⟨"x".data ++ (cssSmLit ++ ("a.css.map".data ++ ['*', '/']))⟩ =
      ⟨"x".data⟩ ++ "/*# sourceMappingURL=" ++ posixBasename "maps/a-H.css.map" ++ "*/" :=
  ⟨⟨by decide, by decide, by decide, by decide, by decide⟩,
    (sourceMapReplace_directory_lookup.1 cexSmDigest "." "x".data "a.css.map".data
        (by decide) (by decide) (by decide)).1 "maps/a-H.css.map" (by decide) (by decide)⟩

/-! ### C1 -/

theorem transformFile_hash_of_transformed (ext : Ext) (fs : String → String)
    (filePath : String) (cb : String → String)
    (h : (transformFile ext fs filePath cb).transformed = true) :
    (transformFile ext fs filePath cb).hash =
      some (ext.md5 (transformFile ext fs filePath cb).stream) := by
  by_cases he : fileToString ext fs filePath = cb (fileToString ext fs filePath)
  · simp [transformFile, ← he] at h
  · simp only [transformFile, if_neg he]
    simp only [recalculateHash, transformedDataToStream, hashFromString]
    by_cases hgz : isGzipped filePath
    · simp [hgz]
    · simp [hgz]

theorem replaceHashedFilenames_hash_of_transformed (ext : Ext) (fs : String → String)
    (d : Digest) (filePath relName : String)
    (h : (replaceHashedFilenames ext fs d filePath relName).transformed = true) :
    (replaceHashedFilenames ext fs d filePath relName).hash =
      some (ext.md5 (replaceHashedFilenames ext fs d filePath relName).stream) := by
  simp only [replaceHashedFilenames] at h ⊢
  by_cases hj : getContentType ext.mime filePath = CONTENT_TYPE_JS
  · rw [if_pos hj] at h ⊢
    exact transformFile_hash_of_transformed ext fs filePath _ h
  · rw [if_neg hj] at h ⊢
    by_cases hc : getContentType ext.mime filePath = CONTENT_TYPE_CSS
    · rw [if_pos hc] at h ⊢
      exact transformFile_hash_of_transformed ext fs filePath _ h
    · rw [if_neg hc] at h
      simp at h

/-- C1 counterexample: for a rewritten (transformed) CSS file whose
original key matches the gzip-on-hash pattern, the etag handed to the
conditional-upload check is the hash of the rewriter's output stream,
while the bytes actually uploaded are the additionally gzipped stream —
the two fingerprints differ, so the recomputed hash is not the hash of the
final uploaded byte stream. -/
theorem uploadHashedFile_gzip_on_hash_etag_mismatch :
    (replaceHashedFilenames mockExt cexFs cexGzipSync.digest "b/a.css"
        (relativeFileName cexGzipSync "b/a.css")).transformed = true ∧
    (uploadHashedFilePlan cexGzipSync mockExt cexFs "b/a.css").map (fun a => a.etag) =
      some (some "md5(url(/i-H.png))") ∧
    (uploadHashedFilePlan cexGzipSync mockExt cexFs "b/a.css").map
        (fun a => mockExt.md5 a.body) =
      some "md5(gz(url(/i-H.png)))" ∧
    ("md5(url(/i-H.png))" : String) ≠ "md5(gz(url(/i-H.png)))" := by
  refine ⟨by decide, by decide, by decide, by decide⟩

/-- C1 (amended): for a text file the rewriter reports as transformed, the
etag handed to the conditional-upload check is the hash of the rewriter's
output stream — which covers the re-gzip of a gzip-named source — and
therefore equals the hash of the bytes actually uploaded exactly when the
gzip-on-hash key pattern does **not** match (when it matches, the upload
body is gzipped once more but the fingerprint is still taken over the
pre-compression stream). -/
theorem uploadHashedFile_etag_of_transformed (st : S3Sync) (ext : Ext)
    (fs : String → String) (filePath : String) (a : UploadAttempt)
    (hmd5 : ∀ s, ext.md5 s ≠ "")
    (hplan : uploadHashedFilePlan st ext fs filePath = some a)
    (htr : (replaceHashedFilenames ext fs st.digest filePath
      (relativeFileName st filePath)).transformed = true)
    (hgz : shouldGzipHashedFileKey st
      (s3KeyForRelativeFileName st (relativeFileName st filePath)) = false) :
    a.etag = some (ext.md5 a.body) := by
  simp only [uploadHashedFilePlan, hgz, if_false] at hplan
  split at hplan
  case h_1 => exact absurd hplan (by simp)
  case h_2 hk hkeq =>
    split at hplan
    case isTrue => exact absurd hplan (by simp)
    case isFalse =>
      split at hplan
      case isTrue => exact absurd hplan (by simp)
      case isFalse =>
        have ha := Option.some.inj hplan
        have hhash := replaceHashedFilenames_hash_of_transformed ext fs st.digest filePath
          (relativeFileName st filePath) htr
        rw [← ha]
        simp only [hhash]
        simp [jsOr, jsTruthy, hmd5]

theorem mockExt_md5_ne_empty : ∀ s, mockExt.md5 s ≠ "" := by
  intro s h
  have h' : "md5(" ++ s ++ ")" = "" := h
  have hlen := congrArg String.length h'
  rw [String.length_append, String.length_append] at hlen
  have h4 : ("md5(" : String).length = 4 := rfl
  have h1 : ((")") : String).length = 1 := rfl
  have h0 : ("" : String).length = 0 := rfl
  rw [h4, h1, h0] at hlen
  omega

/-- Witness for C1's amended theorem: the same transformed CSS file with
the gzip-on-hash option absent. -/
theorem uploadHashedFile_etag_of_transformed_witness :
    (∀ s, mockExt.md5 s ≠ "") ∧
    (replaceHashedFilenames mockExt cexFs cexPlainSync.digest "b/a.css"
        (relativeFileName cexPlainSync "b/a.css")).transformed = true ∧
    shouldGzipHashedFileKey cexPlainSync
        (s3KeyForRelativeFileName cexPlainSync (relativeFileName cexPlainSync "b/a.css")) =
      false ∧
    (∃ a : UploadAttempt, uploadHashedFilePlan cexPlainSync mockExt cexFs "b/a.css" = some a ∧
      a.etag = some (mockExt.md5 a.body)) :=
  ⟨mockExt_md5_ne_empty, by decide, by decide,
    ⟨{ key := "a-HASH.css"
       etag := some "md5(url(/i-H.png))"
       body := "url(/i-H.png)"
       headers := fileHeaders cexPlainSync mockExt "b/a.css" },
      rfl,
      uploadHashedFile_etag_of_transformed cexPlainSync mockExt cexFs "b/a.css" _
        mockExt_md5_ne_empty rfl (by decide) (by decide)⟩⟩

/-! ### Path character-provenance lemmas -/

theorem splitSlash_ne_nil : ∀ cs : List Char, splitSlash cs ≠ [] := by
  intro cs
  cases cs with
  | nil => simp [splitSlash]
  | cons c rest =>
    simp only [splitSlash]
    split
    · simp
    · split <;> simp

theorem mem_splitSlash : ∀ {cs : List Char} {seg : List Char}, seg ∈ splitSlash cs →
    ∀ {c : Char}, c ∈ seg → c ∈ cs := by
  intro cs
  induction cs with
  | nil =>
    intro seg hseg c hc
    simp [splitSlash] at hseg
    subst hseg
    simp at hc
  | cons x rest ih =>
    intro seg hseg c hc
    simp only [splitSlash] at hseg
    by_cases hx : x = '/'
    · rw [if_pos hx] at hseg
      rcases List.mem_cons.mp hseg with h | h
      · subst h
        simp at hc
      · exact List.mem_cons_of_mem _ (ih h hc)
    · rw [if_neg hx] at hseg
      cases hsp : splitSlash rest with
      | nil => exact absurd hsp (splitSlash_ne_nil rest)
      | cons s ss =>
        rw [hsp] at hseg
        rcases List.mem_cons.mp hseg with h | h
        · subst h
          rcases List.mem_cons.mp hc with h' | h'
          · subst h'
            exact List.mem_cons_self _ _
          · exact List.mem_cons_of_mem _
              (ih (by rw [hsp]; exact List.mem_cons_self s ss) h')
        · exact List.mem_cons_of_mem _
            (ih (by rw [hsp]; exact List.mem_cons_of_mem s h) hc)

theorem mem_normSegs : ∀ (segs acc : List (List Char)) (isAbs : Bool) {seg : List Char},
    seg ∈ normSegs isAbs acc segs → seg ∈ acc ∨ seg ∈ segs := by
  intro segs
  induction segs with
  | nil =>
    intro acc isAbs seg h
    simp only [normSegs] at h
    left
    exact List.mem_reverse.mp h
  | cons s rest ih =>
    intro acc isAbs seg h
    simp only [normSegs] at h
    split at h
    · rcases ih _ _ h with h' | h'
      · exact Or.inl h'
      · exact Or.inr (List.mem_cons_of_mem _ h')
    · split at h
      · split at h
        · split at h
          · rcases ih _ _ h with h' | h'
            · rcases List.mem_cons.mp h' with h'' | h''
              · exact Or.inr (h'' ▸ List.mem_cons_self _ _)
              · exact Or.inl h''
            · exact Or.inr (List.mem_cons_of_mem _ h')
          · rename_i top acc' _
            rcases ih _ _ h with h' | h'
            · exact Or.inl (List.mem_cons_of_mem _ h')
            · exact Or.inr (List.mem_cons_of_mem _ h')
        · split at h
          · rcases ih _ _ h with h' | h'
            · simp at h'
            · exact Or.inr (List.mem_cons_of_mem _ h')
          · rcases ih _ _ h with h' | h'
            · rcases List.mem_cons.mp h' with h'' | h''
              · exact Or.inr (h'' ▸ List.mem_cons_self _ _)
              · simp at h''
            · exact Or.inr (List.mem_cons_of_mem _ h')
      · rcases ih _ _ h with h' | h'
        · rcases List.mem_cons.mp h' with h'' | h''
          · exact Or.inr (h'' ▸ List.mem_cons_self _ _)
          · exact Or.inl h''
        · exact Or.inr (List.mem_cons_of_mem _ h')

theorem mem_joinSegs : ∀ {segs : List (List Char)} {c : Char}, c ∈ joinSegs segs →
    c = '/' ∨ ∃ seg ∈ segs, c ∈ seg := by
  intro segs
  induction segs with
  | nil =>
    intro c h
    simp [joinSegs] at h
  | cons s rest ih =>
    intro c h
    cases rest with
    | nil =>
      right
      exact ⟨s, List.mem_cons_self _ _, by simpa [joinSegs] using h⟩
    | cons s2 rest2 =>
      simp only [joinSegs] at h
      rcases List.mem_append.mp h with h' | h'
      · exact Or.inr ⟨s, List.mem_cons_self _ _, h'⟩
      · rcases List.mem_cons.mp h' with h'' | h''
        · exact Or.inl h''
        · rcases ih h'' with h3 | ⟨seg, hm, hc⟩
          · exact Or.inl h3
          · exact Or.inr ⟨seg, List.mem_cons_of_mem _ hm, hc⟩

theorem posixNormalize_no_dot {s : String} (h : '.' ∉ s.data) :
    posixNormalize s = "." ∨ '.' ∉ (posixNormalize s).data := by
  have hbody : '.' ∉ joinSegs (normSegs (s.data.head? = some '/') [] (splitSlash s.data)) := by
    intro hc
    rcases mem_joinSegs hc with h1 | ⟨seg, hm, hc2⟩
    · exact absurd h1 (by decide)
    · rcases mem_normSegs _ _ _ hm with h2 | h2
      · simp at h2
      · exact h (mem_splitSlash h2 hc2)
  simp only [posixNormalize]
  split
  case isTrue =>
    right
    intro hc
    rcases List.mem_cons.mp hc with h1 | h1
    · exact absurd h1 (by decide)
    · exact hbody h1
  case isFalse =>
    split
    case isTrue => exact Or.inl rfl
    case isFalse => exact Or.inr hbody

theorem data_append (a b : String) : (a ++ b).data = a.data ++ b.data := rfl

theorem posixJoin_no_dot {a b : String} (ha : '.' ∉ a.data) (hb : '.' ∉ b.data) :
    posixJoin a b = "." ∨ '.' ∉ (posixJoin a b).data := by
  simp only [posixJoin]
  split
  · split
    · exact Or.inl rfl
    · exact posixNormalize_no_dot hb
  · split
    · exact posixNormalize_no_dot ha
    · apply posixNormalize_no_dot
      intro hc
      rw [data_append, data_append] at hc
      rcases List.mem_append.mp hc with h1 | h1
      · rcases List.mem_append.mp h1 with h2 | h2
        · exact ha h2
        · exact absurd h2 (by decide)
      · exact hb h1

theorem extMatchStart_posixJoin_none {a b : String} (ha : '.' ∉ a.data) (hb : '.' ∉ b.data) :
    extMatchStart (posixJoin a b).data = none := by
  rcases posixJoin_no_dot ha hb with h | h
  · rw [h]
    decide
  · exact extMatchStart_eq_none h

theorem posixNormalize_ne_empty (s : String) : posixNormalize s ≠ "" := by
  simp only [posixNormalize]
  split
  · intro h
    exact absurd (congrArg String.data h) (by simp)
  · split
    · simp
    case isFalse hne =>
      intro h
      exact hne (by simpa using congrArg String.data h)

theorem posixJoin_ne_empty (a b : String) : posixJoin a b ≠ "" := by
  simp only [posixJoin]
  split
  · split
    · simp
    · exact posixNormalize_ne_empty _
  · split
    · exact posixNormalize_ne_empty _
    · exact posixNormalize_ne_empty _

theorem addFileToDigest_config (st : S3Sync) (ext : Ext) (fs : String → String) (p : String) :
    (addFileToDigest st ext fs p).path = st.path ∧
    (addFileToDigest st ext fs p).pfx = st.pfx := by
  simp only [addFileToDigest]
  split
  · exact ⟨rfl, rfl⟩
  · exact ⟨rfl, rfl⟩

/-! ### C10 -/

/-- C10 counterexample: for the extensionless file `Makefile`, when the
gzip-on-hash pattern matches its key, `.gz` is appended, so the digest does
*not* map the file to its own original key and the hashed-variant upload is
*not* skipped. -/
theorem extensionless_gzip_on_hash_not_skipped :
    ('.' ∉ "Makefile".data) ∧
    isHashedFileName cexMakefileSync (relativeFileName cexMakefileSync "b/Makefile") = false ∧
    (addFileToDigest cexMakefileSync mockExt cexMakefileFs "b/Makefile").digest "Makefile" =
      some "Makefile.gz" ∧
    ("Makefile.gz" : String) ≠ s3KeyForRelativeFileName cexMakefileSync "Makefile" ∧
    (uploadHashedFilePlan (addFileToDigest cexMakefileSync mockExt cexMakefileFs "b/Makefile")
        mockExt cexMakefileFs "b/Makefile").isSome = true := by
  refine ⟨by decide, by decide, by decide, by decide, by decide⟩

/-- C10 (amended): for a gathered file whose relative name contains no dot
(and with a dot-free destination prefix), that does not match the
pre-hashed pattern, and whose key the gzip-on-hash pattern does **not**
match, the hash-insertion pattern finds no extension, the computed hashed
key equals the original destination key, the digest maps the file to its
own original key, and the hashed-variant upload is skipped through the
`hashedFileKey === originalFileKey` branch (no conditional check issued,
whatever the remote responds). -/
theorem extensionless_key_hashed_upload_skipped (st : S3Sync) (ext : Ext)
    (fs : String → String) (filePath : String)
    (hdot : '.' ∉ (relativeFileName st filePath).data)
    (hpfx : '.' ∉ st.pfx.data)
    (hhash : isHashedFileName st (relativeFileName st filePath) = false)
    (hgz : shouldGzipHashedFileKey st
      (s3KeyForRelativeFileName st (relativeFileName st filePath)) = false) :
    hashedFileKey (s3KeyForRelativeFileName st (relativeFileName st filePath))
        (hashFromFile ext fs filePath) =
      s3KeyForRelativeFileName st (relativeFileName st filePath) ∧
    (addFileToDigest st ext fs filePath).digest (relativeFileName st filePath) =
      some (s3KeyForRelativeFileName st (relativeFileName st filePath)) ∧
    uploadHashedFilePlan (addFileToDigest st ext fs filePath) ext fs filePath = none ∧
    ∀ head : HeadParams → HeadOutcome,
      uploadHashedFile (addFileToDigest st ext fs filePath) ext fs head filePath = .ok none := by
  set name := relativeFileName st filePath with hname
  set key := s3KeyForRelativeFileName st name with hkey
  have hkeymatch : extMatchStart key.data = none := by
    rw [hkey]
    exact extMatchStart_posixJoin_none hpfx hdot
  have h1 : hashedFileKey key (hashFromFile ext fs filePath) = key := by
    unfold hashedFileKey
    rw [hkeymatch]
  have hst' : (addFileToDigest st ext fs filePath).digest =
      digestInsert st.digest name key := by
    simp only [addFileToDigest, hhash, Bool.false_eq_true, if_false, hgz, ← hname, ← hkey]
    rw [h1]
  have h2 : (addFileToDigest st ext fs filePath).digest name = some key := by
    rw [hst']
    simp [digestInsert]
  have hcfg := addFileToDigest_config st ext fs filePath
  have hname' : relativeFileName (addFileToDigest st ext fs filePath) filePath = name := by
    rw [hname]
    unfold relativeFileName
    rw [hcfg.1]
  have hkey' : s3KeyForRelativeFileName (addFileToDigest st ext fs filePath) name = key := by
    rw [hkey]
    unfold s3KeyForRelativeFileName
    rw [hcfg.2]
  have h3 : uploadHashedFilePlan (addFileToDigest st ext fs filePath) ext fs filePath = none := by
    simp only [uploadHashedFilePlan, hname', hkey', h2]
    have hkne : key ≠ "" := by
      rw [hkey]
      exact posixJoin_ne_empty _ _
    simp only [jsTruthy, if_neg hkne]
    simp
  refine ⟨h1, h2, h3, ?_⟩
  intro head
  unfold uploadHashedFile
  rw [h3]

/-- Witness for C10's amended theorem at the `Makefile` instance without
the gzip-on-hash option. -/
theorem extensionless_key_hashed_upload_skipped_witness :
    ('.' ∉ (relativeFileName mockSync "b/Makefile").data ∧
      '.' ∉ mockSync.pfx.data ∧
      isHashedFileName mockSync (relativeFileName mockSync "b/Makefile") = false ∧
      shouldGzipHashedFileKey mockSync
        (s3KeyForRelativeFileName mockSync (relativeFileName mockSync "b/Makefile")) = false) ∧
    ((addFileToDigest mockSync mockExt cexMakefileFs "b/Makefile").digest
        (relativeFileName mockSync "b/Makefile") =
      some (s3KeyForRelativeFileName mockSync (relativeFileName mockSync "b/Makefile")) ∧
    uploadHashedFilePlan (addFileToDigest mockSync mockExt cexMakefileFs "b/Makefile")
        mockExt cexMakefileFs "b/Makefile" = none) :=
  ⟨⟨by decide, by decide, by decide, by decide⟩,
    ⟨(extensionless_key_hashed_upload_skipped mockSync mockExt cexMakefileFs "b/Makefile"
        (by decide) (by decide) (by decide) (by decide)).2.1,
      (extensionless_key_hashed_upload_skipped mockSync mockExt cexMakefileFs "b/Makefile"
        (by decide) (by decide) (by decide) (by decide)).2.2.1⟩⟩

/-! ### C9 -/

/-- C9 counterexample: for a gzip-named file, a caller-supplied
`gzipHeaders` option carrying a conflicting `ContentType` is merged after
the kind-derived headers and overrides them, so the kind-derived
`ContentType` does not appear in the final merged header set. -/
theorem fileHeaders_caller_gzip_contentType_overrides :
    fileHeaders
        { mockSync with
          gzipHeaders := fun k => if k = "ContentType" then some "text/plain" else none }
        mockExt "b/app.js.gz" "ContentType" = some "text/plain" ∧
    getContentType mockExt.mime "b/app.js.gz" = CONTENT_TYPE_JS ∧
    ("text/plain" : String) ≠ CONTENT_TYPE_JS := by
  refine ⟨?_, by decide, by decide⟩
  decide

/-- C9 (amended): the kind-derived `ContentType` wins over the caller's
`headers` option; only for a gzip-named file with a `ContentType` entry in
the gzip header set (caller-supplied `gzipHeaders`) can it be
overridden — otherwise the final merged header set carries the
kind-derived `ContentType` whatever the caller supplied. -/
theorem fileHeaders_contentType_kind_derived (st : S3Sync) (ext : Ext) (filePath : String)
    (h : isGzipped filePath = false ∨ st.gzipHeaders "ContentType" = none) :
    fileHeaders st ext filePath "ContentType" =
      some (getContentType ext.mime filePath) := by
  unfold fileHeaders hAssign
  rcases h with h | h
  · rw [h]
    rfl
  · cases hgz : isGzipped filePath
    · rfl
    · simp [h]

/-- Witness for C9's amended theorem: with the default gzip headers (which
carry no `ContentType`), the kind-derived value survives even for a
gzip-named file with a conflicting caller `headers` option. -/
theorem fileHeaders_contentType_kind_derived_witness :
    ((isGzipped "b/app.js.gz" = false ∨
        ({ mockSync with
            headers := fun k => if k = "ContentType" then some "text/plain" else none } :
          S3Sync).gzipHeaders "ContentType" = none)) ∧
    fileHeaders
        { mockSync with
          headers := fun k => if k = "ContentType" then some "text/plain" else none }
        mockExt "b/app.js.gz" "ContentType" =
      some (getContentType mockExt.mime "b/app.js.gz") :=
  ⟨Or.inr (by decide),
    fileHeaders_contentType_kind_derived _ mockExt "b/app.js.gz" (Or.inr (by decide))⟩

/-! ### C7 -/

/-- C7: whenever the rewriting pass yields text byte-identical to the
original — in particular for every non-CSS, non-JavaScript file, which is
never rewritten — the result reports `transformed = false`, hands back a
stream of the original file, and carries no recomputed hash, so the
caller's etag computation `transformResult.hash || etagMap[filePath]`
falls back to the original file's recorded hash. -/
theorem replaceHashedFilenames_noop (ext : Ext) (fs : String → String) (digest : Digest)
    (filePath relName : String)
    (hjs : getContentType ext.mime filePath = CONTENT_TYPE_JS →
      replaceHashedFilenamesInJs digest (posixDirname relName) (fileToString ext fs filePath) =
        fileToString ext fs filePath)
    (hcss : getContentType ext.mime filePath = CONTENT_TYPE_CSS →
      replaceHashedFilenamesInCss digest (posixDirname relName) (fileToString ext fs filePath) =
        fileToString ext fs filePath) :
    replaceHashedFilenames ext fs digest filePath relName =
      { transformed := false, stream := fs filePath, hash := none } ∧
    ∀ originalEtag : Option String,
      jsOr (replaceHashedFilenames ext fs digest filePath relName).hash originalEtag =
        originalEtag := by
  have hmain : replaceHashedFilenames ext fs digest filePath relName =
      { transformed := false, stream := fs filePath, hash := none } := by
    unfold replaceHashedFilenames
    by_cases hj : getContentType ext.mime filePath = CONTENT_TYPE_JS
    · rw [if_pos hj]
      simp [transformFile, hjs hj]
    · rw [if_neg hj]
      by_cases hc : getContentType ext.mime filePath = CONTENT_TYPE_CSS
      · rw [if_pos hc]
        simp [transformFile, hcss hc]
      · rw [if_neg hc]
  refine ⟨hmain, ?_⟩
  intro originalEtag
  rw [hmain]
  rfl

/-- Witness for C7 at a concrete non-CSS, non-JavaScript file. -/
theorem replaceHashedFilenames_noop_witness :
    getContentType mockExt.mime "b/logo.png" ≠ CONTENT_TYPE_JS ∧
    getContentType mockExt.mime "b/logo.png" ≠ CONTENT_TYPE_CSS ∧
    (replaceHashedFilenames mockExt cexMakefileFs emptyDigest "b/logo.png" "logo.png" =
      { transformed := false, stream := cexMakefileFs "b/logo.png", hash := none } ∧
    ∀ originalEtag : Option String,
      jsOr (replaceHashedFilenames mockExt cexMakefileFs emptyDigest "b/logo.png" "logo.png").hash
          originalEtag = originalEtag) :=
  ⟨by decide, by decide,
    replaceHashedFilenames_noop mockExt cexMakefileFs emptyDigest "b/logo.png" "logo.png"
      (fun h => absurd h (by decide)) (fun h => absurd h (by decide))⟩

end S3AssetUploader
